import Mathlib

/-!
# Verification of the `ermon` streaming incident aggregator

Shallow embedding of the aggregator in `ermon.go` (the current revision of the
repository; the superseded revisions kept alongside it are not modelled, per the
design note that the most recent revision's windowing policy is authoritative).

Modelling conventions:
* `logBuffer`, `emailBuffer`, `runningContextBuffer`, `lastErrorLineIndex`,
  `emailsSent`, `timeSinceError`, `finalRun` are the Go globals / locals of
  `readLogs` and `sendLogsByEmail`, collected in one state record.
* The Go line counter `i : uint64` and `lastErrorLineIndex : uint64` are
  modelled as `Nat`; the program maintains `lastErrorLineIndex ≤ i`, so the
  `uint64` subtraction `i - lastErrorLineIndex` agrees with `Nat` subtraction.
* Times (`time.Time`) are modelled as `Nat` seconds; `time.Since t` at the
  current instant `now` is `now - t` (truncated subtraction, which agrees with
  Go's comparisons `< time.Hour` / `> runningTimeWindow` for past timestamps).
* `lineContainsError cfg` is an abstract pure predicate of the line (the regex
  matcher), modelled as a `String → Bool` parameter.
* `maxContextBuffer` (the context capacity C, 8 in the source) is kept as a
  parameter, as the specification treats the context window size as a
  configuration value with default 8; `maxEmailBufferSize` is the literal 5 of
  the source.
* Two ghost fields record history without influencing any step: `placed` lists
  every incident ever appended to `emailBuffer`, and `deliverEvents` lists
  every invocation of `sendMail` (its time, the batch formatted into the mail
  body, and whether SMTP delivery succeeded — the Go code only logs a failure,
  so the outcome does not feed back into the state).
-/

namespace Ermon

/-- `maxEmailBufferSize = 5` in `ermon.go`: capacity of the email (delivery) queue. -/
def maxEmailBufferSize : Nat := 5

/-- One hour in seconds (`time.Hour`), the rate-limiter window. -/
def hourSecs : Nat := 3600

/-- One minute in seconds (`time.Minute`), the startup grace period. -/
def minuteSecs : Nat := 60

/-- `runningTimeWindow = time.Minute * 2` in seconds: staleness window for an
open incident. -/
def runningTimeWindow : Nat := 120

/-- Configuration-level parameters of the aggregator.  `C` is
`maxContextBuffer` (8 in the source), `maxPerHour` is `cfg.MaxEmailsPerHour`,
`isErr` is `lineContainsError cfg`, `debug` is the `ERMON_DEBUG` override. -/
structure Params where
  C : Nat
  maxPerHour : Nat
  isErr : String → Bool
  debug : Bool

/-- The aggregator state: locals of `readLogs` plus the shared globals.
`placed` and `deliverEvents` are ghost history fields (see module comment). -/
structure AggState where
  ring : List String
  logBuffer : List String
  emailBuffer : List (List String)
  lastErrorLineIndex : Nat
  i : Nat
  timeSinceError : Option Nat
  emailsSent : List Nat
  finalRun : Bool
  placed : List (List String)
  deliverEvents : List (Nat × List (List String) × Bool)
  deriving Repr, DecidableEq

/-- Models `len(strings.TrimSpace(line)) == 0`: the line consists of
whitespace only. -/
def isBlank (line : String) : Bool :=
  line.data.all fun c => c.isWhitespace

/-- The state in which `readLogs` starts: all buffers empty, the fixed-size
`runningContextBuffer` array holding `C` zero-value (empty) strings. -/
def initState (p : Params) : AggState :=
  { ring := List.replicate p.C ""
    logBuffer := []
    emailBuffer := []
    lastErrorLineIndex := 0
    i := 0
    timeSinceError := none
    emailsSent := []
    finalRun := false
    placed := []
    deliverEvents := [] }

/-- The body of the `readLogs` loop after the blank-line check and the
over-capacity flush, for line number `i = s.i + 1`.  `enough` is the value of
`enoughContextInLogBuffer` computed before the flush.  Faithfully mirrors, in
order: the full-queue `continue`, the error branch (context seeding and error
append), the ring maintenance (the array branch `len(...) >= maxContextBuffer`
is always taken, since a Go array's length is its fixed capacity `C`), the
trailing-context append, and the natural-window seal. -/
def processScan (p : Params) (now : Nat) (s : AggState) (line : String)
    (enough : Bool) : AggState :=
  let i := s.i + 1
  if maxEmailBufferSize ≤ s.emailBuffer.length then
    { s with i := i }
  else
    let s1 :=
      if p.isErr line then
        { s with
            timeSinceError := some now
            logBuffer :=
              (if s.lastErrorLineIndex = 0 then s.logBuffer ++ s.ring
               else s.logBuffer) ++ (if enough then [] else [line])
            lastErrorLineIndex := i }
      else s
    let s2 := { s1 with ring := s1.ring.drop 1 ++ [line] }
    let s3 :=
      if 0 < s2.lastErrorLineIndex ∧ s2.lastErrorLineIndex ≠ i ∧
          i - s2.lastErrorLineIndex < p.C ∧ enough = false then
        { s2 with logBuffer := s2.logBuffer ++ [line] }
      else s2
    if 0 < s3.logBuffer.length ∧ i - s3.lastErrorLineIndex = p.C then
      { s3 with
          logBuffer := []
          emailBuffer := s3.emailBuffer ++ [s3.logBuffer]
          lastErrorLineIndex := 0
          placed := s3.placed ++ [s3.logBuffer]
          i := i }
    else
      { s3 with i := i }

/-- One iteration of the `readLogs` scanner loop on input `line`: echo (no
state), blank-line skip, the `enoughContextInLogBuffer` flush, then the rest of
the body (`processScan`).  `now` is the instant of this iteration, used only
for `timeSinceError`. -/
def processLine (p : Params) (now : Nat) (s : AggState) (line : String) :
    AggState :=
  if isBlank line then
    { s with i := s.i + 1 }
  else if 3 * p.C < s.logBuffer.length then
    processScan p now
      { s with
          emailBuffer := s.emailBuffer ++ [s.logBuffer]
          logBuffer := []
          lastErrorLineIndex := 0
          placed := s.placed ++ [s.logBuffer] }
      line true
  else
    processScan p now s line false

/-- Run `readLogs` over a whole list of input lines (ingest only, no
interleaved flush), all at instant `now`. -/
def processLines (p : Params) (now : Nat) (s : AggState)
    (lines : List String) : AggState :=
  lines.foldl (processLine p now) s

/-- `emailsSent` filtered to the last rolling hour (lines 36–42 of
`sendLogsByEmail`). -/
def pruneLedger (now : Nat) (ledger : List Nat) : List Nat :=
  ledger.filter fun t => now - t < hourSecs

/-- The condition of line 50 of `sendLogsByEmail` apart from
`len(logBuffer) > 0`: the run is final, or the open incident is stale. -/
def staleOrFinal (now : Nat) (s : AggState) : Bool :=
  s.finalRun ||
    (match s.timeSinceError with
     | some t => decide (runningTimeWindow < now - t)
     | none => false)

/-- One invocation of `sendLogsByEmail`, at instant `now`, with process start
time `startup`; `ok` is the outcome of the SMTP send, recorded only in the
ghost `deliverEvents` (a `sendMail` failure is logged and otherwise ignored).
Mirrors, in order: the ledger prune, the rate-limit abort (which discards
`emailBuffer`), the stale/final push of `logBuffer`, the startup grace return,
the empty-queue return, and the delivery (reset `timeSinceError` and
`lastErrorLineIndex`, drain `emailBuffer`, append `now` to the ledger, call
`sendMail`). -/
def flushStep (p : Params) (now startup : Nat) (ok : Bool) (s : AggState) :
    AggState :=
  let sent := pruneLedger now s.emailsSent
  if p.maxPerHour ≤ sent.length then
    { s with emailsSent := sent, emailBuffer := [] }
  else
    let s1 :=
      if 0 < s.logBuffer.length ∧ staleOrFinal now s = true then
        { s with
            emailsSent := sent
            emailBuffer := s.emailBuffer ++ [s.logBuffer]
            logBuffer := []
            placed := s.placed ++ [s.logBuffer] }
      else { s with emailsSent := sent }
    if s1.finalRun = true ∧ now - startup < minuteSecs ∧ p.debug = false then
      s1
    else if s1.emailBuffer.length = 0 then
      s1
    else
      { s1 with
          timeSinceError := none
          lastErrorLineIndex := 0
          emailBuffer := []
          emailsSent := sent ++ [now]
          deliverEvents := s1.deliverEvents ++ [(now, s1.emailBuffer, ok)] }

/-- One atomic transition of the whole system: an ingest iteration (possible
while `readLogs` is still running, i.e. `finalRun = false`), the
end-of-stream transition of `main` setting `finalRun`, or one `sendLogsByEmail`
invocation (from the `watchLogBuffer` timer or the final call in `main`). -/
inductive Step (p : Params) : AggState → AggState → Prop
  | ingest (s : AggState) (line : String) (now : Nat)
      (h : s.finalRun = false) : Step p s (processLine p now s line)
  | finish (s : AggState) : Step p s { s with finalRun := true }
  | flush (s : AggState) (now startup : Nat) (ok : Bool) :
      Step p s (flushStep p now startup ok s)

/-- States reachable from the initial state under any interleaving of steps. -/
def Reachable (p : Params) (s : AggState) : Prop :=
  Relation.ReflTransGen (Step p) (initState p) s

/-- Queue-capacity invariant: the email queue never exceeds
`maxEmailBufferSize`, and whenever it is full the open incident buffer is
empty. -/
def InvQ (s : AggState) : Prop :=
  s.emailBuffer.length ≤ maxEmailBufferSize ∧
    (maxEmailBufferSize ≤ s.emailBuffer.length → s.logBuffer = [])

/-- Ingest-path invariant used for the size bound: the ring keeps its fixed
capacity, a non-empty open incident has a recorded last error line, the open
incident holds at most `3*C + 1` lines, and so does everything ever placed on
(or currently in) the queue. -/
def InvI (p : Params) (s : AggState) : Prop :=
  s.ring.length = p.C ∧
    (s.logBuffer ≠ [] → s.lastErrorLineIndex ≠ 0) ∧
    s.logBuffer.length ≤ 3 * p.C + 1 ∧
    (∀ b ∈ s.placed, b.length ≤ 3 * p.C + 1) ∧
    (∀ b ∈ s.emailBuffer, b.length ≤ 3 * p.C + 1) ∧
    (maxEmailBufferSize ≤ s.emailBuffer.length → s.logBuffer = [])

/-! ### Concrete scenarios

Configurations instantiating the abstract matcher with simple decidable
predicates, and the input streams used by the specification's scenarios. -/

/-- Configuration with context capacity 3 whose matcher fires exactly on the
line `boom error` (e.g. match pattern `boom error`). -/
def paramsA : Params :=
  { C := 3, maxPerHour := 5, isErr := fun l => l == "boom error",
    debug := false }

/-- The input stream of the specification's round-trip scenario. -/
def roundTripLines : List String :=
  ["ok1", "ok2", "boom error", "ok3", "ok4", "ok5", "ok6", "ok7", "ok8", "ok9"]

/-- The aggregator state after ingesting the round-trip stream with `C = 3`. -/
def roundTripRun : AggState :=
  processLines paramsA 0 (initState paramsA) roundTripLines

/-- Matcher firing on the eight lines `m1`–`m8` (e.g. pattern `m[1-8]`). -/
def errPredM : String → Bool :=
  fun l => decide (l ∈ (["m1", "m2", "m3", "m4", "m5", "m6", "m7", "m8"] : List String))

/-- Configuration with context capacity 3 and matcher `errPredM`. -/
def paramsM : Params :=
  { C := 3, maxPerHour := 5, isErr := errPredM, debug := false }

/-- A burst of eight error lines followed by three normal lines. -/
def paddingLines : List String :=
  ["m1", "m2", "m3", "m4", "m5", "m6", "m7", "m8", "a9", "a10", "a11"]

/-- The aggregator state after ingesting `paddingLines`. -/
def paddingRun : AggState :=
  processLines paramsM 0 (initState paramsM) paddingLines

/-- A burst of seven consecutive error lines. -/
def burstLines : List String :=
  ["m1", "m2", "m3", "m4", "m5", "m6", "m7"]

/-- The aggregator state after ingesting `burstLines`. -/
def burstRun : AggState :=
  processLines paramsM 0 (initState paramsM) burstLines

/-- Matcher firing on the five lines `E0`–`E4`. -/
def errPredE : String → Bool :=
  fun l => decide (l ∈ (["E0", "E1", "E2", "E3", "E4"] : List String))

/-- Configuration with context capacity 3 and matcher `errPredE`. -/
def paramsE : Params :=
  { C := 3, maxPerHour := 5, isErr := errPredE, debug := false }

/-- Five error bursts, each sealing an incident three lines after its error:
enough to fill the delivery queue to its capacity of 5. -/
def backpressureLines : List String :=
  ["E0", "a0", "b0", "c0", "E1", "a1", "b1", "c1", "E2", "a2", "b2", "c2",
   "E3", "a3", "b3", "c3", "E4", "a4", "b4", "c4"]

/-- The aggregator state (with a full delivery queue) after ingesting
`backpressureLines`. -/
def backpressureRun : AggState :=
  processLines paramsE 0 (initState paramsE) backpressureLines

/-- Matcher firing exactly on the line `E`. -/
def paramsB : Params :=
  { C := 3, maxPerHour := 5, isErr := fun l => l == "E", debug := false }

/-- A stream with an error followed by one blank line and three normal lines. -/
def blankLines : List String := ["E", "", "x1", "x2", "x3"]

/-- `blankLines` with its blank line removed. -/
def strippedLines : List String := ["E", "x1", "x2", "x3"]

/-- A state with one sealed incident queued and an empty ledger, right before
a flush whose SMTP send will fail. -/
def ledgerFailState : AggState :=
  { initState paramsA with emailBuffer := [["boom error"]] }

/-- The state of `main` just after `readLogs` returned on a stream holding a
single error line: `finalRun` has been set for the final flush. -/
def graceFinal : AggState :=
  { processLines paramsA 10 (initState paramsA) ["boom error"] with
      finalRun := true }

/-- The default configuration of the source (`maxContextBuffer = 8`), with the
`boom error` matcher. -/
def paramsDefault : Params :=
  { C := 8, maxPerHour := 5, isErr := fun l => l == "boom error",
    debug := false }

/-- A configuration whose hourly email budget is zero, so every flush is
rate-limited. -/
def paramsZero : Params :=
  { C := 3, maxPerHour := 0, isErr := fun l => l == "boom error",
    debug := false }

/-- A state whose delivery queue is full (five sealed incidents). -/
def fullQueueState : AggState :=
  { initState paramsA with
      emailBuffer := [["a"], ["b"], ["c"], ["d"], ["e"]] }

/-! ### Theorems -/

/-- C1 (counterexample): on the round-trip stream with `C = 3`, the single
sealed incident is not the one the specification predicts: the code seeds the
incident with the whole 3-entry ring snapshot (whose first slot is still the
zero-value empty string, as only two lines preceded the error), and the
trailing context stops one line short of the window (`< C`, with the window
boundary line `ok5` consumed by the seal check instead of being appended). -/
theorem roundTripSpecRefuted :
    roundTripRun.emailBuffer ≠ [["ok1", "ok2", "boom error", "ok3", "ok4", "ok5"]] := by
  decide

/-- C1 (amended): the round-trip stream with `C = 3` yields exactly one sealed
incident, `["", "ok1", "ok2", "boom error", "ok3", "ok4"]` — the 3-entry ring
snapshot (one empty padding slot and the two available pre-context lines), the
error line, and `C - 1 = 2` trailing lines — sealed while processing the line
of index 6; the delivery queue has length 1 after the last line is processed. -/
theorem roundTripActual :
    roundTripRun.emailBuffer = [["", "ok1", "ok2", "boom error", "ok3", "ok4"]] ∧
      roundTripRun.emailBuffer.length = 1 := by
  decide

/-- C9 (counterexample): removing a blank line changes the sealed incidents,
because a blank line still advances the line counter `i`, shifting the
trailing-window arithmetic: the stream `["E", "", "x1", "x2", "x3"]` and its
blank-stripped variant produce different delivery queues. -/
theorem blankLinesChangeResult :
    strippedLines = blankLines.filter (fun l => !(isBlank l)) ∧
      (processLines paramsB 0 (initState paramsB) blankLines).emailBuffer ≠
        (processLines paramsB 0 (initState paramsB) strippedLines).emailBuffer := by
  decide

/-- C9 (amended): a whitespace-only line is echoed and then skipped: it leaves
the context ring, the open incident, the delivery queue, the ledger and
`lastErrorLineIndex` unchanged — but the line index `i` still advances, so the
window arithmetic of a stream is not that of its blank-stripped variant. -/
theorem blankLineFrame (p : Params) (now : Nat) (s : AggState) (line : String)
    (hb : isBlank line = true) :
    processLine p now s line = { s with i := s.i + 1 } := by
  simp [processLine, hb]

/-- Witness for `blankLineFrame` at a concrete blank line. -/
theorem blankLineFrameWitness :
    processLine paramsA 0 (initState paramsA) " " =
      { initState paramsA with i := (initState paramsA).i + 1 } :=
  blankLineFrame paramsA 0 (initState paramsA) " " (by decide)

/-- C5 (counterexample): with the delivery queue full (capacity 5), processing
the non-blank line `z` does not push it into the context ring — the full-queue
`continue` fires before the ring maintenance and before the matcher runs, so
the ring is unchanged and never contains `z`. -/
theorem fullQueueRingNotUpdated :
    backpressureRun.emailBuffer.length = 5 ∧
      (processLine paramsE 0 backpressureRun "z").ring = backpressureRun.ring ∧
      "z" ∉ (processLine paramsE 0 backpressureRun "z").ring := by
  decide

/-- C5 (amended): when the delivery queue is at capacity, processing a
non-blank line (with the open buffer not over the `3*C` cap, as in every
reachable full-queue state) changes nothing except the line counter: the line
is neither pushed to the context ring nor scanned, no incident opens or grows,
and the queue is unchanged. -/
theorem fullQueueFrame (p : Params) (now : Nat) (s : AggState) (line : String)
    (hq : maxEmailBufferSize ≤ s.emailBuffer.length)
    (hlb : s.logBuffer.length ≤ 3 * p.C)
    (hnb : isBlank line = false) :
    processLine p now s line = { s with i := s.i + 1 } := by
  have h2 : ¬ 3 * p.C < s.logBuffer.length := by omega
  simp [processLine, processScan, hnb, h2, hq]

/-- Witness for `fullQueueFrame` at a concrete full-queue state. -/
theorem fullQueueFrameWitness :
    processLine paramsA 0 fullQueueState "x" =
      { fullQueueState with i := fullQueueState.i + 1 } :=
  fullQueueFrame paramsA 0 fullQueueState "x" (by decide) (by decide) (by decide)

/-- C2 (counterexample): after the burst `m1 … m8, a9, a10, a11` with `C = 3`,
the first queued incident contains the empty string — a ring-padding entry
that was never an input line — and the second queued incident (opened by the
error `m8`, whose arrival coincided with the over-capacity flush) does not
contain its triggering error line `m8` at all. -/
theorem paddingRefuted :
    paddingRun.emailBuffer =
      [["", "", "", "m1", "m2", "m3", "m4", "m5", "m6", "m7"],
       ["m5", "m6", "m7", "a9", "a10"]] ∧
      "" ∈ (["", "", "", "m1", "m2", "m3", "m4", "m5", "m6", "m7"] : List String) ∧
      "" ∉ paddingLines ∧
      "m8" ∉ (["m5", "m6", "m7", "a9", "a10"] : List String) := by
  decide

/-- C2 (amended): an incident opened by an error line while the assembler is
idle and the queue not full is seeded with the entire `C`-entry ring snapshot
(which is padded with empty strings while fewer than `C` non-blank lines have
been seen), followed by the error line itself — except that when the error
arrives together with an over-capacity flush, the error line is omitted and
the fresh incident is the bare snapshot. -/
theorem incidentOpeningShape (p : Params) (now : Nat) (s : AggState)
    (line : String) (hC : 1 ≤ p.C) (hring : s.ring.length = p.C)
    (hnb : isBlank line = false) (herr : p.isErr line = true) :
    (s.logBuffer = [] → s.lastErrorLineIndex = 0 →
      s.emailBuffer.length < maxEmailBufferSize →
      (processLine p now s line).logBuffer = s.ring ++ [line] ∧
        (processLine p now s line).logBuffer.length = p.C + 1) ∧
    (3 * p.C < s.logBuffer.length →
      s.emailBuffer.length + 1 < maxEmailBufferSize →
      (processLine p now s line).logBuffer = s.ring ∧
        (processLine p now s line).emailBuffer =
          s.emailBuffer ++ [s.logBuffer]) := by
  constructor
  · intro hlb hlast hq
    have h2 : ¬ 3 * p.C < s.logBuffer.length := by simp [hlb]
    have h3 : ¬ maxEmailBufferSize ≤ s.emailBuffer.length := by omega
    have h4 : ¬ (0 = p.C) := by omega
    simp [processLine, processScan, hnb, h2, h3, herr, hlast, hlb, h4, hring]
  · intro hov hq
    have h3 : ¬ maxEmailBufferSize ≤ s.emailBuffer.length + 1 := by omega
    have h4 : ¬ (0 = p.C) := by omega
    simp [processLine, processScan, hnb, hov, h3, herr, h4]

/-- Witness for `incidentOpeningShape`: opening an incident from the initial
(idle) state with `C = 3` seeds it with the all-padding snapshot followed by
the error line. -/
theorem incidentOpeningShapeWitness :
    (processLine paramsA 0 (initState paramsA) "boom error").logBuffer =
      (initState paramsA).ring ++ ["boom error"] :=
  ((incidentOpeningShape paramsA 0 (initState paramsA) "boom error"
      (by decide) (by decide) (by decide) (by decide)).1 rfl rfl (by decide)).1

/-- C3 (counterexample): after seven consecutive error lines with `C = 3`, the
open incident holds 10 lines — strictly more than `3*C = 9` — yet it has not
been sealed (the queue is empty and the assembler is still open): the
over-capacity seal does not fire as soon as the length exceeds `3*C`, only at
the start of the next non-blank line. -/
theorem overcapSealDelayed :
    burstRun.emailBuffer = [] ∧ burstRun.logBuffer.length = 10 ∧
      3 * 3 < 10 ∧ burstRun.lastErrorLineIndex ≠ 0 := by
  decide

/-- C3 (amended): while processing a non-blank line of index `i = s.i + 1`
(in a state where a full queue implies an empty open buffer, as in every
reachable state), the queue grows by exactly one incident — a seal — if and
only if the open buffer already exceeded `3*C` at the start of the line
(delayed over-capacity seal), or the line is a non-error line with
`i - lastErrorLineIndex = C` and an open buffer (natural trailing-window
expiry; an error line at that boundary extends the incident instead).  After a
seal on a non-error line the assembler is idle: `lastErrorLineIndex = 0` and
the open buffer is empty. -/
theorem sealCharacterization (p : Params) (now : Nat) (s : AggState)
    (line : String) (hC : 1 ≤ p.C)
    (hfull : maxEmailBufferSize ≤ s.emailBuffer.length → s.logBuffer = [])
    (hnb : isBlank line = false) :
    ((processLine p now s line).emailBuffer.length =
        if 3 * p.C < s.logBuffer.length ∨
            (s.logBuffer ≠ [] ∧ p.isErr line = false ∧
              s.i + 1 - s.lastErrorLineIndex = p.C)
          then s.emailBuffer.length + 1 else s.emailBuffer.length) ∧
    ((3 * p.C < s.logBuffer.length ∨
        (s.logBuffer ≠ [] ∧ p.isErr line = false ∧
          s.i + 1 - s.lastErrorLineIndex = p.C)) →
      p.isErr line = false →
      (processLine p now s line).logBuffer = [] ∧
        (processLine p now s line).lastErrorLineIndex = 0) := by
  by_cases hov : 3 * p.C < s.logBuffer.length
  · have hne : s.logBuffer ≠ [] := by
      intro h
      rw [h] at hov
      simp at hov
    have hq4 : ¬ maxEmailBufferSize ≤ s.emailBuffer.length := fun h =>
      hne (hfull h)
    have h4 : ¬ (0 = p.C) := by omega
    by_cases hq : maxEmailBufferSize ≤ s.emailBuffer.length + 1
    · constructor
      · simp [processLine, processScan, hnb, hov, hq]
      · intro _ herr
        simp [processLine, processScan, hnb, hov, hq, herr]
    · constructor
      · by_cases herr : p.isErr line
        · simp [processLine, processScan, hnb, hov, hq, herr, h4]
        · simp [processLine, processScan, hnb, hov, hq, herr, h4]
      · intro _ herr
        simp [processLine, processScan, hnb, hov, hq, herr, h4]
  · by_cases hq : maxEmailBufferSize ≤ s.emailBuffer.length
    · have hlb := hfull hq
      constructor
      · simp [processLine, processScan, hnb, hov, hq, hlb]
      · intro hcond
        rcases hcond with h | h
        · exact absurd h hov
        · exact absurd hlb h.1
    · by_cases herr : p.isErr line
      · have h4 : ¬ (0 = p.C) := by omega
        constructor
        · simp [processLine, processScan, hnb, hov, hq, herr, h4]
        · intro hcond herr2
          rw [herr2] at herr
          simp at herr
      · by_cases htrail : 0 < s.lastErrorLineIndex ∧
            s.lastErrorLineIndex ≠ s.i + 1 ∧
            s.i + 1 - s.lastErrorLineIndex < p.C
        · have h5 : ¬ (s.i + 1 - s.lastErrorLineIndex = p.C) := by omega
          constructor
          · simp [processLine, processScan, hnb, hov, hq, herr, htrail, h5]
          · intro hcond
            rcases hcond with h | h
            · exact absurd h hov
            · exact absurd h.2.2 h5
        · by_cases hseal : 0 < s.logBuffer.length ∧
              s.i + 1 - s.lastErrorLineIndex = p.C
          · have hne : s.logBuffer ≠ [] := by
              intro h
              rw [h] at hseal
              simp at hseal
            constructor
            · simp [processLine, processScan, hnb, hov, hq, herr, htrail,
                hseal, hne]
            · intro _ _
              simp [processLine, processScan, hnb, hov, hq, herr, htrail,
                hseal]
          · constructor
            · have hcond : ¬ (¬ s.logBuffer = [] ∧
                  s.i + 1 - s.lastErrorLineIndex = p.C) := by
                rintro ⟨h1, h3⟩
                exact hseal ⟨List.length_pos.mpr h1, h3⟩
              simp [processLine, processScan, hnb, hov, hq, herr, htrail,
                hseal, hcond]
            · intro hcond _
              rcases hcond with h | ⟨h1, _, h3⟩
              · exact absurd h hov
              · exact absurd ⟨List.length_pos.mpr h1, h3⟩ hseal

/-- Witness for `sealCharacterization`: the state after the first five
round-trip lines seals on the non-error line `ok5` (index 6, three lines after
the error at index 3). -/
theorem sealCharacterizationWitness :
    (processLine paramsA 0
        (processLines paramsA 0 (initState paramsA)
          ["ok1", "ok2", "boom error", "ok3", "ok4"]) "ok5").emailBuffer.length =
      if 3 * paramsA.C <
          (processLines paramsA 0 (initState paramsA)
            ["ok1", "ok2", "boom error", "ok3", "ok4"]).logBuffer.length ∨
          ((processLines paramsA 0 (initState paramsA)
              ["ok1", "ok2", "boom error", "ok3", "ok4"]).logBuffer ≠ [] ∧
            paramsA.isErr "ok5" = false ∧
            (processLines paramsA 0 (initState paramsA)
                  ["ok1", "ok2", "boom error", "ok3", "ok4"]).i + 1 -
                (processLines paramsA 0 (initState paramsA)
                  ["ok1", "ok2", "boom error", "ok3", "ok4"]).lastErrorLineIndex =
              paramsA.C)
        then (processLines paramsA 0 (initState paramsA)
            ["ok1", "ok2", "boom error", "ok3", "ok4"]).emailBuffer.length + 1
        else (processLines paramsA 0 (initState paramsA)
            ["ok1", "ok2", "boom error", "ok3", "ok4"]).emailBuffer.length :=
  (sealCharacterization paramsA 0
      (processLines paramsA 0 (initState paramsA)
        ["ok1", "ok2", "boom error", "ok3", "ok4"]) "ok5"
      (by decide) (by decide) (by decide)).1

/-- C6: every `sendLogsByEmail` invocation first prunes the ledger to the last
rolling hour; if the pruned count reaches `MaxEmailsPerHour`, `sendMail` is
not invoked and the whole queued batch is discarded (the queue is emptied and
nothing is requeued) — the resulting state is exactly the input state with the
pruned ledger and an empty queue.  Moreover the ledger left behind by any
flush contains no timestamp older than one hour relative to that flush. -/
theorem rateLimiterDiscards (p : Params) (now startup : Nat) (ok : Bool)
    (s : AggState) :
    (p.maxPerHour ≤ (pruneLedger now s.emailsSent).length →
      flushStep p now startup ok s =
        { s with emailsSent := pruneLedger now s.emailsSent,
                 emailBuffer := [] }) ∧
    ∀ t ∈ (flushStep p now startup ok s).emailsSent, now - t < hourSecs := by
  constructor
  · intro h
    simp [flushStep, h]
  · have hmem : ∀ t ∈ pruneLedger now s.emailsSent, now - t < hourSecs := by
      intro t ht
      have := List.of_mem_filter ht
      simpa using this
    intro t ht
    simp only [flushStep] at ht
    split_ifs at ht
    all_goals
      first
        | exact hmem t ht
        | (rcases List.mem_append.mp ht with h | h
           · exact hmem t h
           · have heq : t = now := by simpa using h
             subst heq
             simp [hourSecs])

/-- Witness for `rateLimiterDiscards`: with a zero hourly budget, a flush from
the initial state discards the (empty) queue without delivering. -/
theorem rateLimiterDiscardsWitness :
    flushStep paramsZero 5 0 true (initState paramsZero) =
      { initState paramsZero with
          emailsSent := pruneLedger 5 (initState paramsZero).emailsSent,
          emailBuffer := [] } :=
  (rateLimiterDiscards paramsZero 5 0 true (initState paramsZero)).1 (by decide)

/-- C7 (counterexample): a flush that delivers appends `time.Now()` to the
ledger *before* `sendMail` runs and regardless of its outcome: here the SMTP
send fails (outcome `false`), yet the ledger gains the timestamp 100. -/
theorem failedSendStillLedgered :
    (flushStep paramsA 100 0 false ledgerFailState).emailsSent = [100] ∧
      (flushStep paramsA 100 0 false ledgerFailState).deliverEvents =
        [(100, [["boom error"]], false)] := by
  decide

/-- C7 (amended): a timestamp is appended to the send ledger exactly when
`sendMail` is invoked — one entry per invocation — independent of whether the
delivery succeeds; a flush that does not invoke `sendMail` leaves the pruned
ledger without a new entry. -/
theorem ledgerEntryIffDeliverInvoked (p : Params) (now startup : Nat)
    (ok : Bool) (s : AggState) :
    ((flushStep p now startup ok s).deliverEvents ≠ s.deliverEvents →
      (flushStep p now startup ok s).emailsSent =
          pruneLedger now s.emailsSent ++ [now] ∧
        (flushStep p now startup ok s).deliverEvents.length =
          s.deliverEvents.length + 1) ∧
    ((flushStep p now startup ok s).deliverEvents = s.deliverEvents →
      (flushStep p now startup ok s).emailsSent =
        pruneLedger now s.emailsSent) := by
  simp only [flushStep]
  split_ifs
  all_goals
    first
      | exact ⟨fun h => absurd rfl h, fun _ => rfl⟩
      | exact ⟨fun _ => ⟨rfl, by simp⟩, fun h => by simp at h⟩

/-- Witness for `ledgerEntryIffDeliverInvoked` at a delivering flush. -/
theorem ledgerEntryIffDeliverInvokedWitness :
    (flushStep paramsA 100 0 true ledgerFailState).emailsSent =
        pruneLedger 100 ledgerFailState.emailsSent ++ [100] ∧
      (flushStep paramsA 100 0 true ledgerFailState).deliverEvents.length =
        ledgerFailState.deliverEvents.length + 1 :=
  (ledgerEntryIffDeliverInvoked paramsA 100 0 true ledgerFailState).1 (by decide)

/-- C8: the shutdown-triggered flush (`finalRun` set) performs no `sendMail`
call when the process has been running for less than one minute and the debug
override is off — in every state, its ghost record of deliveries is
unchanged.  In particular a process exiting within the grace period after a
single error, with no delivering timer flush in between, invokes `sendMail`
zero times. -/
theorem gracePeriodSuppressesFinalFlush (p : Params) (now startup : Nat)
    (ok : Bool) (s : AggState) (hfr : s.finalRun = true)
    (hgrace : now - startup < minuteSecs) (hdbg : p.debug = false) :
    (flushStep p now startup ok s).deliverEvents = s.deliverEvents := by
  simp only [flushStep]
  split_ifs <;> first | rfl | simp_all

/-- Witness for `gracePeriodSuppressesFinalFlush`: the final flush of a
process that saw one error line and exits 50 seconds after startup delivers
nothing. -/
theorem gracePeriodSuppressesFinalFlushWitness :
    (flushStep paramsA 50 0 true graceFinal).deliverEvents = [] := by
  have h := gracePeriodSuppressesFinalFlush paramsA 50 0 true graceFinal
    (by decide) (by decide) (by decide)
  rw [h]
  decide

/-- `processScan` preserves the queue-capacity invariant. -/
theorem invQ_processScan (p : Params) (now : Nat) (line : String)
    (enough : Bool) (s : AggState)
    (h1 : s.emailBuffer.length ≤ maxEmailBufferSize)
    (h2 : maxEmailBufferSize ≤ s.emailBuffer.length → s.logBuffer = []) :
    InvQ (processScan p now s line enough) := by
  unfold InvQ
  simp only [processScan]
  split_ifs <;>
    refine ⟨?_, ?_⟩ <;>
      simp_all [maxEmailBufferSize] <;>
      omega

/-- `processLine` preserves the queue-capacity invariant. -/
theorem invQ_processLine (p : Params) (now : Nat) (s : AggState)
    (line : String) (h : InvQ s) : InvQ (processLine p now s line) := by
  obtain ⟨h1, h2⟩ := h
  by_cases hb : isBlank line
  · have heq : processLine p now s line = { s with i := s.i + 1 } := by
      simp [processLine, hb]
    rw [heq]
    exact ⟨h1, h2⟩
  · by_cases hov : 3 * p.C < s.logBuffer.length
    · have hne : s.logBuffer ≠ [] := by
        intro hh
        rw [hh] at hov
        simp at hov
      have hq4 : ¬ maxEmailBufferSize ≤ s.emailBuffer.length := fun hh =>
        hne (h2 hh)
      have heq : processLine p now s line =
          processScan p now
            { s with
                emailBuffer := s.emailBuffer ++ [s.logBuffer]
                logBuffer := []
                lastErrorLineIndex := 0
                placed := s.placed ++ [s.logBuffer] }
            line true := by
        simp [processLine, hb, hov]
      rw [heq]
      apply invQ_processScan
      · simp only [List.length_append, List.length_cons, List.length_nil]
        unfold maxEmailBufferSize at *
        omega
      · intro _
        rfl
    · have heq : processLine p now s line = processScan p now s line false := by
        simp [processLine, hb, hov]
      rw [heq]
      exact invQ_processScan p now line false s h1 h2

/-- `flushStep` preserves the queue-capacity invariant. -/
theorem invQ_flushStep (p : Params) (now startup : Nat) (ok : Bool)
    (s : AggState) (h : InvQ s) : InvQ (flushStep p now startup ok s) := by
  obtain ⟨h1, h2⟩ := h
  have hkey : s.logBuffer ≠ [] →
      s.emailBuffer.length + 1 ≤ maxEmailBufferSize := by
    intro hne
    by_cases hq : maxEmailBufferSize ≤ s.emailBuffer.length
    · exact absurd (h2 hq) hne
    · omega
  unfold InvQ
  simp only [flushStep]
  split_ifs with hA hB hC hD hE hF
  · exact ⟨by simp [maxEmailBufferSize],
      fun hh => by simp [maxEmailBufferSize] at hh⟩
  · refine ⟨?_, fun _ => rfl⟩
    have hne : s.logBuffer ≠ [] := by
      intro hh
      rw [hh] at hB
      simp at hB
    have hb5 := hkey hne
    simp only [List.length_append, List.length_cons, List.length_nil]
    omega
  · refine ⟨?_, fun _ => rfl⟩
    have hne : s.logBuffer ≠ [] := by
      intro hh
      rw [hh] at hB
      simp at hB
    have hb5 := hkey hne
    simp only [List.length_append, List.length_cons, List.length_nil]
    omega
  · exact ⟨by simp [maxEmailBufferSize], fun _ => rfl⟩
  · exact ⟨h1, fun hh => h2 hh⟩
  · exact ⟨h1, fun hh => h2 hh⟩
  · exact ⟨by simp [maxEmailBufferSize],
      fun hh => by simp [maxEmailBufferSize] at hh⟩

/-- Every reachable state satisfies the queue-capacity invariant. -/
theorem reachable_invQ (p : Params) (s : AggState) (hs : Reachable p s) :
    InvQ s := by
  have hs' : Relation.ReflTransGen (Step p) (initState p) s := hs
  clear hs
  induction hs' with
  | refl => exact ⟨by simp [initState, maxEmailBufferSize], fun _ => rfl⟩
  | tail _ hstep ih =>
    cases hstep with
    | ingest line now hfr => exact invQ_processLine p now _ line ih
    | finish => exact ⟨ih.1, ih.2⟩
    | flush now startup ok => exact invQ_flushStep p now startup ok _ ih

/-- C4: at every reachable state of the aggregator, under any interleaving of
ingest, shutdown and flush steps, the delivery queue holds at most
`maxEmailBufferSize = 5` incidents; and whenever the queue is full, ingesting
any further line leaves the queue unchanged — the would-be incident content is
silently dropped by the full-queue `continue`. -/
theorem deliveryQueueBounded (p : Params) (s : AggState)
    (hs : Reachable p s) :
    s.emailBuffer.length ≤ maxEmailBufferSize ∧
      (maxEmailBufferSize ≤ s.emailBuffer.length →
        ∀ line now, (processLine p now s line).emailBuffer = s.emailBuffer) := by
  obtain ⟨h1, h2⟩ := reachable_invQ p s hs
  refine ⟨h1, fun hfull line now => ?_⟩
  have hlb := h2 hfull
  by_cases hb : isBlank line
  · simp [processLine, hb]
  · have hov : ¬ 3 * p.C < s.logBuffer.length := by
      rw [hlb]
      simp
    simp [processLine, processScan, hb, hov, hfull]

/-- Witness for `deliveryQueueBounded` at the (reachable) initial state. -/
theorem deliveryQueueBoundedWitness :
    (initState paramsA).emailBuffer.length ≤ maxEmailBufferSize :=
  (deliveryQueueBounded paramsA (initState paramsA)
      Relation.ReflTransGen.refl).1

/-- `processScan` preserves the ingest-path size invariant, given that the
call sites establish: with `enough = true` the buffer was just flushed (empty,
index reset), with `enough = false` the buffer is within the `3*C` cap. -/
theorem invI_processScan (p : Params) (now : Nat) (line : String)
    (enough : Bool) (s : AggState) (hC : 1 ≤ p.C)
    (hring : s.ring.length = p.C)
    (hopen : s.logBuffer ≠ [] → s.lastErrorLineIndex ≠ 0)
    (hlb : s.logBuffer.length ≤ 3 * p.C + 1)
    (hplaced : ∀ b ∈ s.placed, b.length ≤ 3 * p.C + 1)
    (heb : ∀ b ∈ s.emailBuffer, b.length ≤ 3 * p.C + 1)
    (hfull : maxEmailBufferSize ≤ s.emailBuffer.length → s.logBuffer = [])
    (hsmall : enough = false → s.logBuffer.length ≤ 3 * p.C)
    (hflushed : enough = true →
      s.logBuffer = [] ∧ s.lastErrorLineIndex = 0) :
    InvI p (processScan p now s line enough) := by
  have hring2 : (s.ring.drop 1 ++ [line]).length = p.C := by
    simp only [List.length_append, List.length_drop, List.length_cons,
      List.length_nil, hring]
    omega
  by_cases hq : maxEmailBufferSize ≤ s.emailBuffer.length
  · have heq : processScan p now s line enough = { s with i := s.i + 1 } := by
      simp [processScan, hq]
    rw [heq]
    exact ⟨hring, hopen, hlb, hplaced, heb, fun hh => hfull hh⟩
  · have h0 : ¬ (0 = p.C) := by omega
    by_cases herr : p.isErr line = true
    · by_cases hen : enough = true
      · obtain ⟨hlb0, hlast0⟩ := hflushed hen
        have heq : processScan p now s line enough =
            { s with
                timeSinceError := some now
                logBuffer := s.ring
                lastErrorLineIndex := s.i + 1
                ring := s.ring.drop 1 ++ [line]
                i := s.i + 1 } := by
          simp [processScan, hq, herr, hen, hlast0, hlb0, h0]
        rw [heq]
        refine ⟨hring2, fun _ => by simp, ?_, hplaced, heb,
          fun hh => absurd hh hq⟩
        rw [hring]
        omega
      · have hen' : enough = false := by
          cases enough
          · rfl
          · exact absurd rfl hen
        have hsm := hsmall hen'
        by_cases hlast : s.lastErrorLineIndex = 0
        · have hlb0 : s.logBuffer = [] := by
            by_contra hne
            exact hopen hne hlast
          have heq : processScan p now s line enough =
              { s with
                  timeSinceError := some now
                  logBuffer := s.ring ++ [line]
                  lastErrorLineIndex := s.i + 1
                  ring := s.ring.drop 1 ++ [line]
                  i := s.i + 1 } := by
            simp [processScan, hq, herr, hen', hlast, hlb0, h0]
          rw [heq]
          refine ⟨hring2, fun _ => by simp, ?_, hplaced, heb,
            fun hh => absurd hh hq⟩
          simp only [List.length_append, List.length_cons, List.length_nil,
            hring]
          omega
        · have heq : processScan p now s line enough =
              { s with
                  timeSinceError := some now
                  logBuffer := s.logBuffer ++ [line]
                  lastErrorLineIndex := s.i + 1
                  ring := s.ring.drop 1 ++ [line]
                  i := s.i + 1 } := by
            simp [processScan, hq, herr, hen', hlast, h0]
          rw [heq]
          refine ⟨hring2, fun _ => by simp, ?_, hplaced, heb,
            fun hh => absurd hh hq⟩
          simp only [List.length_append, List.length_cons, List.length_nil]
          omega
    · have herr' : p.isErr line = false := by
        cases hpe : p.isErr line
        · rfl
        · exact absurd hpe herr
      by_cases htrail : 0 < s.lastErrorLineIndex ∧
          s.lastErrorLineIndex ≠ s.i + 1 ∧
          s.i + 1 - s.lastErrorLineIndex < p.C ∧ enough = false
      · have hnseal : ¬ (s.i + 1 - s.lastErrorLineIndex = p.C) := by
          have := htrail.2.2.1
          omega
        have hsm := hsmall htrail.2.2.2
        have heq : processScan p now s line enough =
            { s with
                logBuffer := s.logBuffer ++ [line]
                ring := s.ring.drop 1 ++ [line]
                i := s.i + 1 } := by
          simp [processScan, hq, herr', htrail, hnseal]
        rw [heq]
        refine ⟨hring2, fun _ => Nat.pos_iff_ne_zero.mp htrail.1, ?_,
          hplaced, heb, fun hh => absurd hh hq⟩
        simp only [List.length_append, List.length_cons, List.length_nil]
        omega
      · by_cases hseal : 0 < s.logBuffer.length ∧
            s.i + 1 - s.lastErrorLineIndex = p.C
        · have heq : processScan p now s line enough =
              { s with
                  logBuffer := []
                  emailBuffer := s.emailBuffer ++ [s.logBuffer]
                  lastErrorLineIndex := 0
                  placed := s.placed ++ [s.logBuffer]
                  ring := s.ring.drop 1 ++ [line]
                  i := s.i + 1 } := by
            simp [processScan, hq, herr', htrail, hseal]
          rw [heq]
          refine ⟨hring2, fun hh => absurd rfl hh, by simp, ?_, ?_,
            fun _ => rfl⟩
          · intro b hbm
            rcases List.mem_append.mp hbm with hm | hm
            · exact hplaced b hm
            · have hb' : b = s.logBuffer := by simpa using hm
              rw [hb']
              exact hlb
          · intro b hbm
            rcases List.mem_append.mp hbm with hm | hm
            · exact heb b hm
            · have hb' : b = s.logBuffer := by simpa using hm
              rw [hb']
              exact hlb
        · have heq : processScan p now s line enough =
              { s with
                  ring := s.ring.drop 1 ++ [line]
                  i := s.i + 1 } := by
            simp [processScan, hq, herr', htrail, hseal]
          rw [heq]
          exact ⟨hring2, hopen, hlb, hplaced, heb, fun hh => absurd hh hq⟩

/-- `processLine` preserves the ingest-path size invariant. -/
theorem invI_processLine (p : Params) (hC : 1 ≤ p.C) (now : Nat)
    (s : AggState) (line : String) (h : InvI p s) :
    InvI p (processLine p now s line) := by
  obtain ⟨hring, hopen, hlb, hplaced, heb, hfull⟩ := h
  by_cases hb : isBlank line
  · have heq : processLine p now s line = { s with i := s.i + 1 } := by
      simp [processLine, hb]
    rw [heq]
    exact ⟨hring, hopen, hlb, hplaced, heb, hfull⟩
  · by_cases hov : 3 * p.C < s.logBuffer.length
    · have heq : processLine p now s line =
          processScan p now
            { s with
                emailBuffer := s.emailBuffer ++ [s.logBuffer]
                logBuffer := []
                lastErrorLineIndex := 0
                placed := s.placed ++ [s.logBuffer] }
            line true := by
        simp [processLine, hb, hov]
      rw [heq]
      refine invI_processScan p now line true _ hC ?_ ?_ ?_ ?_ ?_ ?_ ?_ ?_
      · exact hring
      · exact fun hh => absurd rfl hh
      · simp
      · intro b hbm
        rcases List.mem_append.mp hbm with hm | hm
        · exact hplaced b hm
        · have : b = s.logBuffer := by simpa using hm
          rw [this]
          exact hlb
      · intro b hbm
        rcases List.mem_append.mp hbm with hm | hm
        · exact heb b hm
        · have : b = s.logBuffer := by simpa using hm
          rw [this]
          exact hlb
      · exact fun _ => rfl
      · intro hh
        simp at hh
      · exact fun _ => ⟨rfl, rfl⟩
    · have heq : processLine p now s line = processScan p now s line false := by
        simp [processLine, hb, hov]
      rw [heq]
      exact invI_processScan p now line false s hC hring hopen hlb hplaced heb
        hfull (fun _ => by omega) (fun hh => by simp at hh)

/-- The ingest-path size invariant holds along any ingest-only run. -/
theorem invI_processLines (p : Params) (hC : 1 ≤ p.C) (now : Nat)
    (lines : List String) (s : AggState) (h : InvI p s) :
    InvI p (processLines p now s lines) := by
  induction lines generalizing s with
  | nil => exact h
  | cons a as ih => exact ih (processLine p now s a) (invI_processLine p hC now s a h)

/-- C10: at every point of an ingest-only run from the initial state, the open
incident buffer holds at most `3*C + 1` lines (25 with the default `C = 8`),
and every incident ever placed on the delivery queue — as recorded by the
ghost `placed` history, which subsumes the current queue — holds at most
`3*C + 1` lines. -/
theorem openIncidentBounded (p : Params) (hC : 1 ≤ p.C) (now : Nat)
    (lines : List String) :
    (processLines p now (initState p) lines).logBuffer.length ≤ 3 * p.C + 1 ∧
      (∀ b ∈ (processLines p now (initState p) lines).placed,
        b.length ≤ 3 * p.C + 1) ∧
      (∀ b ∈ (processLines p now (initState p) lines).emailBuffer,
        b.length ≤ 3 * p.C + 1) := by
  have hinit : InvI p (initState p) := by
    refine ⟨by simp [initState], ?_, ?_, ?_, ?_, ?_⟩ <;>
      simp [initState]
  obtain ⟨_, _, hlb, hplaced, heb, _⟩ :=
    invI_processLines p hC now lines (initState p) hinit
  exact ⟨hlb, hplaced, heb⟩

/-- Witness for `openIncidentBounded` with the default capacity `C = 8` on the
round-trip stream. -/
theorem openIncidentBoundedWitness :
    (processLines paramsDefault 0 (initState paramsDefault)
          roundTripLines).logBuffer.length ≤ 3 * paramsDefault.C + 1 ∧
      (∀ b ∈ (processLines paramsDefault 0 (initState paramsDefault)
          roundTripLines).placed, b.length ≤ 3 * paramsDefault.C + 1) ∧
      (∀ b ∈ (processLines paramsDefault 0 (initState paramsDefault)
          roundTripLines).emailBuffer, b.length ≤ 3 * paramsDefault.C + 1) :=
  openIncidentBounded paramsDefault (by decide) 0 roundTripLines

end Ermon
